import Mathlib

/-!
# Verification of the SARIF code-flow conversion core (`src/CodeFlows.ts`)

This file shallowly embeds the `CodeFlows` class of the sarif-vscode-extension
repository and proves the specification claims about it.

Modelling conventions:
* JavaScript `undefined` on an optional field is `Option.none`.
* JavaScript numbers that the schema declares integral (`nestingLevel`) are `Int`;
  the step ordinal (`step`) is `Nat` as in the SARIF schema.
* The async external collaborators are passed in as explicit function arguments:
  `resolve` models `Location.create` (it may fail, and may produce a null
  location), `pm` models `Utilities.parseSarifMessage`.
* A rejected promise / thrown `TypeError` is modelled with the `Except` monad;
  in-place mutation (`tryRemapCodeFlows`) is modelled by returning the updated
  tree.
-/

namespace SarifViewer

/-- Opaque physical-location descriptor (`sarif.PhysicalLocation`); the converter
only hands it to the external resolver, so its contents are irrelevant and it is
modelled as a wrapped identifier. -/
structure PhysicalLocation where
  pid : Nat
deriving DecidableEq, Repr

/-- Opaque raw SARIF message object (`sarif.Message`); only handed to the external
message parser. -/
structure SarifMessage where
  mid : Nat
deriving DecidableEq, Repr

/-- Modelled from the spec: the result shape of the external message parser
`Utilities.parseSarifMessage` (not part of `src/`), declared in the spec as
`parseMessage(ref) -> \x7b text: string \x7d | undefined`. -/
structure ParsedMessage where
  text : String
deriving DecidableEq, Repr

/-- Modelled from the spec: the external resolver result `Location` (the class
`Location` is not part of `src/`). The spec describes a `ResolvedLocation` as
either a fully mapped physical location or a not-mapped placeholder; the only
field the converter core reads is `mapped`. -/
structure Location where
  mapped : Bool
  lid : Nat
deriving DecidableEq, Repr

/-- `sarif.Location` as used by the converter: a required physical-location
descriptor plus an optional message. -/
structure SarifLocation where
  physicalLocation : PhysicalLocation
  message : Option SarifMessage
deriving DecidableEq, Repr

/-- The `sarif.CodeFlowLocation.importance` enumeration. -/
inductive Importance where
  | important
  | essential
  | unimportant
deriving DecidableEq, Repr

/-- `sarif.CodeFlowLocation`: one raw trace location. -/
structure CodeFlowLocation where
  location : SarifLocation
  nestingLevel : Option Int
  importance : Option Importance
  step : Option Nat
  state : Option (List (String × String))
deriving DecidableEq, Repr

/-- `sarif.ThreadFlow`: one raw thread of execution. -/
structure SarifThreadFlow where
  id : Option String
  message : Option SarifMessage
  locations : List CodeFlowLocation
deriving DecidableEq, Repr

/-- `sarif.CodeFlow`: one raw code flow. -/
structure SarifCodeFlow where
  message : Option SarifMessage
  threadFlows : List SarifThreadFlow
deriving DecidableEq, Repr

/-- Modelled from the spec: the opaque callback-command identifier
`ExplorerContentProvider.ExplorerCallbackCommand` (not part of `src/`). -/
def explorerCallbackCommand : String := "extension.sarif.ExplorerCallback"

/-- The `vscode.Command` value built by `createCodeFlowStep`: its single
`arguments` entry carries the fixed request tag and the traversal id. -/
structure Command where
  request : String
  treeid_step : String
  command : String
  title : String
deriving DecidableEq, Repr

/-- Output `CodeFlowStep` (from `Interfaces.ts`). -/
structure CodeFlowStep where
  codeLensCommand : Command
  importance : Importance
  isLastChild : Bool
  isParent : Bool
  location : Option Location
  message : String
  messageWithStep : String
  state : Option (List (String × String))
  stepId : Option Nat
  traversalId : String
deriving DecidableEq, Repr

/-- Output `ThreadFlow` (from `Interfaces.ts`). -/
structure ThreadFlow where
  id : Option String
  message : Option String
  steps : List CodeFlowStep
deriving DecidableEq, Repr

/-- Output `CodeFlow` (from `Interfaces.ts`). -/
structure CodeFlow where
  message : Option String
  threads : List ThreadFlow
deriving DecidableEq, Repr

/-- A rejected promise. `typeError` models a thrown `TypeError` (property access
on `undefined`); `resolveFailure` models a rejection produced by the external
location resolver, carrying an error code. -/
inductive JsError where
  | typeError
  | resolveFailure (code : Nat)
deriving DecidableEq, Repr

/-- Type of the external location resolver `Location.create`: it may reject
(`Except.error`) and may produce a null location (`none`). -/
abbrev Resolver := PhysicalLocation → Except JsError (Option Location)

/-- Type of the external message parser `Utilities.parseSarifMessage`: total on
a possibly-undefined message object, may return `undefined` (`none`). -/
abbrev MsgParser := Option SarifMessage → Option ParsedMessage

/-- JavaScript `<` on two possibly-undefined numbers: any comparison with
`undefined` is `NaN`-valued and hence `false`. -/
def jsLt : Option Int → Option Int → Bool
  | some a, some b => a < b
  | _, _ => false

/-- JavaScript `>` on two possibly-undefined numbers. -/
def jsGt : Option Int → Option Int → Bool
  | some a, some b => a > b
  | _, _ => false

/-- Numeric value of a decimal digit character; proof infrastructure used to
decode the decimal numerals inside traversal ids. -/
def digitVal (c : Char) : Nat := c.toNat - 48

/-- Decodes a big-endian list of decimal digit characters back to the number it
denotes; left inverse of `Nat.repr` on its output. -/
def decodeDigits (l : List Char) : Nat := l.foldl (fun a c => a * 10 + digitVal c) 0

namespace CodeFlows

/-- Embeds the flag computation of `createCodeFlowStep`
(`src/CodeFlows.ts:126-136`): `(isParentFlag, isLastChildFlag)` from the current
and (possibly absent) next raw locations. -/
def stepFlags (cFLoc : CodeFlowLocation) (nextCFLoc : Option CodeFlowLocation) :
    Bool × Bool :=
  match nextCFLoc with
  | none => (false, false)
  | some nxt =>
    if jsLt cFLoc.nestingLevel nxt.nestingLevel ||
        (cFLoc.nestingLevel.isNone && nxt.nestingLevel.isSome) then
      (true, false)
    else if jsGt cFLoc.nestingLevel nxt.nestingLevel ||
        (cFLoc.nestingLevel.isSome && nxt.nestingLevel.isNone) then
      (false, true)
    else
      (false, false)

/-- Embeds the message-text derivation of `createCodeFlowStep`
(`src/CodeFlows.ts:138-150`): parse the current location's message, fall back to
`""`, then to the two literal labels. -/
def stepMessageText (pm : MsgParser) (msg : Option SarifMessage)
    (isLastChildFlag : Bool) : String :=
  let messageText :=
    match pm msg with
    | none => ""
    | some m => m.text
  if messageText = "" then
    if isLastChildFlag then "[return call]" else "[no description]"
  else messageText

/-- The pure remainder of `createCodeFlowStep` (`src/CodeFlows.ts:126-180`) once
the location has resolved to `loc`: flag classification, label derivation, the
code-lens command and the assembled step record. -/
def stepRecord (pm : MsgParser) (cFLoc : CodeFlowLocation)
    (nextCFLoc : Option CodeFlowLocation) (traversalPathId : String)
    (loc : Option Location) : CodeFlowStep :=
  let flags := stepFlags cFLoc nextCFLoc
  let messageText := stepMessageText pm cFLoc.location.message flags.2
  let messageWithStepText :=
    match cFLoc.step with
    | none => messageText
    | some s => s!"Step {s}: " ++ messageText
  let command : Command :=
    { request := "CodeFlowTreeSelectionChange"
      treeid_step := traversalPathId
      command := explorerCallbackCommand
      title := messageWithStepText }
  { codeLensCommand := command
    importance := cFLoc.importance.getD Importance.important
    isLastChild := flags.2
    isParent := flags.1
    location := loc
    message := messageText
    messageWithStep := messageWithStepText
    state := cFLoc.state
    stepId := cFLoc.step
    traversalId := traversalPathId }

/-- Embeds `CodeFlows.createCodeFlowStep` (`src/CodeFlows.ts:115-180`): resolve
the current raw location's descriptor, then build the step record. -/
def createCodeFlowStep (resolve : Resolver) (pm : MsgParser)
    (cFLoc : CodeFlowLocation) (nextCFLoc : Option CodeFlowLocation)
    (traversalPathId : String) : Except JsError CodeFlowStep :=
  (resolve cFLoc.location.physicalLocation).map
    (stepRecord pm cFLoc nextCFLoc traversalPathId)

/-- Embeds the `sarifCF.message !== undefined` guard followed by
`Utilities.parseSarifMessage(...).text` (`src/CodeFlows.ts:70-72` and `95-97`):
reading `.text` when the parser returned `undefined` throws a `TypeError`. -/
def flowMessage (pm : MsgParser) (msg : Option SarifMessage) :
    Except JsError (Option String) :=
  match msg with
  | none => .ok none
  | some m =>
    match pm (some m) with
    | none => .error JsError.typeError
    | some parsed => .ok (some parsed.text)

/-- The step loop of `createThreadFlow` (`src/CodeFlows.ts:99-104`): the element
at loop index `k` is converted together with `locations[k + 1]` (absent for the
last element) under traversal id `tid ++ "_" ++ k`. -/
def stepsLoop (resolve : Resolver) (pm : MsgParser) (tid : String) :
    Nat → List CodeFlowLocation → Except JsError (List CodeFlowStep)
  | _, [] => .ok []
  | k, c :: rest =>
    match createCodeFlowStep resolve pm c rest.head? (tid ++ "_" ++ Nat.repr k) with
    | .error e => .error e
    | .ok s =>
      match stepsLoop resolve pm tid (k + 1) rest with
      | .error e => .error e
      | .ok ss => .ok (s :: ss)

/-- Embeds `CodeFlows.createThreadFlow` (`src/CodeFlows.ts:88-107`). -/
def createThreadFlow (resolve : Resolver) (pm : MsgParser)
    (sarifTF : SarifThreadFlow) (tid : String) : Except JsError ThreadFlow :=
  match flowMessage pm sarifTF.message with
  | .error e => .error e
  | .ok msg =>
    match stepsLoop resolve pm tid 0 sarifTF.locations with
    | .error e => .error e
    | .ok steps => .ok { id := sarifTF.id, message := msg, steps := steps }

/-- The thread loop of `createCodeFlow` (`src/CodeFlows.ts:73-78`). -/
def threadsLoop (resolve : Resolver) (pm : MsgParser) (tid : String) :
    Nat → List SarifThreadFlow → Except JsError (List ThreadFlow)
  | _, [] => .ok []
  | j, t :: ts =>
    match createThreadFlow resolve pm t (tid ++ "_" ++ Nat.repr j) with
    | .error e => .error e
    | .ok tf =>
      match threadsLoop resolve pm tid (j + 1) ts with
      | .error e => .error e
      | .ok tfs => .ok (tf :: tfs)

/-- Embeds `CodeFlows.createCodeFlow` (`src/CodeFlows.ts:64-81`). -/
def createCodeFlow (resolve : Resolver) (pm : MsgParser)
    (sarifCF : SarifCodeFlow) (traversalId : String) : Except JsError CodeFlow :=
  match flowMessage pm sarifCF.message with
  | .error e => .error e
  | .ok msg =>
    match threadsLoop resolve pm traversalId 0 sarifCF.threadFlows with
    | .error e => .error e
    | .ok threads => .ok { message := msg, threads := threads }

/-- The flow loop of `CodeFlows.create` (`src/CodeFlows.ts:26-30`): flow `i` is
converted under traversal id `Nat.repr i`. -/
def flowsLoop (resolve : Resolver) (pm : MsgParser) :
    Nat → List SarifCodeFlow → Except JsError (List CodeFlow)
  | _, [] => .ok []
  | i, f :: fs =>
    match createCodeFlow resolve pm f (Nat.repr i) with
    | .error e => .error e
    | .ok cf =>
      match flowsLoop resolve pm (i + 1) fs with
      | .error e => .error e
      | .ok cfs => .ok (cf :: cfs)

/-- Embeds `CodeFlows.create` (`src/CodeFlows.ts:22-34`): `undefined` or empty
input leaves `codeFlows` `undefined`. -/
def create (resolve : Resolver) (pm : MsgParser)
    (sarifCodeFlows : Option (List SarifCodeFlow)) :
    Except JsError (Option (List CodeFlow)) :=
  match sarifCodeFlows with
  | none => .ok none
  | some fl =>
    if fl.length ≠ 0 then
      match flowsLoop resolve pm 0 fl with
      | .error e => .error e
      | .ok cfs => .ok (some cfs)
    else .ok none

/-- The raw-array lookup
`sarifCodeFlows[cFKey].threadFlows[tFKey].locations[stepKey].location` of
`tryRemapCodeFlows` (`src/CodeFlows.ts:49`); an out-of-range index yields
`undefined` and the subsequent property access throws. -/
def rawLookup (sarifCodeFlows : List SarifCodeFlow) (i j k : Nat) :
    Except JsError SarifLocation :=
  match sarifCodeFlows[i]? with
  | none => .error JsError.typeError
  | some f =>
    match f.threadFlows[j]? with
    | none => .error JsError.typeError
    | some t =>
      match t.locations[k]? with
      | none => .error JsError.typeError
      | some l => .ok l.location

/-- The per-step body of `tryRemapCodeFlows` (`src/CodeFlows.ts:48-53`): a step
whose location is non-null and not mapped gets its location overwritten with a
fresh resolution of the corresponding raw descriptor. -/
def remapStep (resolve : Resolver) (sarifCodeFlows : List SarifCodeFlow)
    (i j k : Nat) (s : CodeFlowStep) : Except JsError CodeFlowStep :=
  match s.location with
  | none => .ok s
  | some l =>
    if l.mapped then .ok s
    else
      match rawLookup sarifCodeFlows i j k with
      | .error e => .error e
      | .ok sarifLoc =>
        match resolve sarifLoc.physicalLocation with
        | .error e => .error e
        | .ok location => .ok { s with location := location }

/-- The step loop of `tryRemapCodeFlows` (`src/CodeFlows.ts:46-54`). -/
def remapStepsLoop (resolve : Resolver) (sarifCodeFlows : List SarifCodeFlow)
    (i j : Nat) : Nat → List CodeFlowStep → Except JsError (List CodeFlowStep)
  | _, [] => .ok []
  | k, s :: ss =>
    match remapStep resolve sarifCodeFlows i j k s with
    | .error e => .error e
    | .ok s' =>
      match remapStepsLoop resolve sarifCodeFlows i j (k + 1) ss with
      | .error e => .error e
      | .ok ss' => .ok (s' :: ss')

/-- The thread loop of `tryRemapCodeFlows` (`src/CodeFlows.ts:44-55`). -/
def remapThreadsLoop (resolve : Resolver) (sarifCodeFlows : List SarifCodeFlow)
    (i : Nat) : Nat → List ThreadFlow → Except JsError (List ThreadFlow)
  | _, [] => .ok []
  | j, t :: ts =>
    match remapStepsLoop resolve sarifCodeFlows i j 0 t.steps with
    | .error e => .error e
    | .ok steps' =>
      match remapThreadsLoop resolve sarifCodeFlows i (j + 1) ts with
      | .error e => .error e
      | .ok ts' => .ok ({ t with steps := steps' } :: ts')

/-- The flow loop of `tryRemapCodeFlows` (`src/CodeFlows.ts:42-56`). -/
def remapFlowsLoop (resolve : Resolver) (sarifCodeFlows : List SarifCodeFlow) :
    Nat → List CodeFlow → Except JsError (List CodeFlow)
  | _, [] => .ok []
  | i, cf :: cfs =>
    match remapThreadsLoop resolve sarifCodeFlows i 0 cf.threads with
    | .error e => .error e
    | .ok threads' =>
      match remapFlowsLoop resolve sarifCodeFlows (i + 1) cfs with
      | .error e => .error e
      | .ok cfs' => .ok ({ cf with threads := threads' } :: cfs')

/-- Embeds `CodeFlows.tryRemapCodeFlows` (`src/CodeFlows.ts:41-57`); the in-place
mutation of the tree is modelled by returning the updated tree. -/
def tryRemapCodeFlows (resolve : Resolver) (codeFlows : List CodeFlow)
    (sarifCodeFlows : List SarifCodeFlow) : Except JsError (List CodeFlow) :=
  remapFlowsLoop resolve sarifCodeFlows 0 codeFlows

end CodeFlows

/-! ## Concrete sample inputs used by witness theorems -/

/-- Sample resolver: always succeeds with a not-mapped location. -/
def resUnmapped : Resolver := fun p => .ok (some { mapped := false, lid := p.pid })

/-- Sample resolver: always succeeds with a mapped location. -/
def resMapped : Resolver := fun p => .ok (some { mapped := true, lid := p.pid })

/-- Sample resolver: always rejects. -/
def resFail : Resolver := fun _ => .error (JsError.resolveFailure 42)

/-- Sample message parser: always returns `undefined`. -/
def pmNone : MsgParser := fun _ => none

/-- Sample raw SARIF location with no message. -/
def sampleSarifLoc : SarifLocation := { physicalLocation := { pid := 1 }, message := none }

/-- Sample raw code-flow location at the given nesting level. -/
def sampleCFL (n : Option Int) : CodeFlowLocation :=
  { location := sampleSarifLoc, nestingLevel := n, importance := none
    step := none, state := none }

/-- Sample raw thread flow with two locations at nesting levels 0 and 1. -/
def sampleTF : SarifThreadFlow :=
  { id := none, message := none, locations := [sampleCFL (some 0), sampleCFL (some 1)] }

/-- Sample raw code flow with a single thread. -/
def sampleFlow : SarifCodeFlow := { message := none, threadFlows := [sampleTF] }

/-- The step produced by converting `sampleCFL (some 0)` with next location
`sampleCFL (some 1)` under `resUnmapped` and `pmNone`. -/
def sampleStep01 : CodeFlowStep :=
  CodeFlows.stepRecord pmNone (sampleCFL (some 0)) (some (sampleCFL (some 1)))
    "0_0_0" (some { mapped := false, lid := 1 })

/-- The flow set produced by converting `[sampleFlow]` under `resUnmapped` and
`pmNone`. -/
def sampleTree : Option (List CodeFlow) :=
  match CodeFlows.create resUnmapped pmNone (some [sampleFlow]) with
  | .ok r => r
  | .error _ => none

/-- The list of converted flows inside `sampleTree`. -/
def sampleTreeList : List CodeFlow := sampleTree.getD []

/-- The first converted flow of `sampleTreeList`. -/
def sampleCF0 : CodeFlow := sampleTreeList.getD 0 { message := none, threads := [] }

/-- The first thread of `sampleCF0`. -/
def sampleT0 : ThreadFlow :=
  sampleCF0.threads.getD 0 { id := none, message := none, steps := [] }

/-- The last step of `sampleT0`. -/
def sampleLastStep : CodeFlowStep := (sampleT0.steps.getLast?).getD sampleStep01

/-- Sample raw code-flow location carrying the step ordinal 5. -/
def sampleCFLOrd : CodeFlowLocation :=
  { location := sampleSarifLoc, nestingLevel := some 0, importance := none
    step := some 5, state := none }

/-- The step produced by converting `sampleCFLOrd` as a final step. -/
def sampleStepOrd : CodeFlowStep :=
  CodeFlows.stepRecord pmNone sampleCFLOrd none "0_0_0"
    (some { mapped := false, lid := 1 })

/-- Sample message parser: always returns the text `"hello"`. -/
def pmConst : MsgParser := fun _ => some { text := "hello" }

/-- Sample raw code flow carrying a message object. -/
def sampleFlowMsg : SarifCodeFlow :=
  { message := some { mid := 3 }, threadFlows := [] }

/-- Sample raw thread flow carrying a message object. -/
def sampleTFMsg : SarifThreadFlow :=
  { id := some "t1", message := some { mid := 4 }, locations := [] }

/-- The flow produced by converting `sampleFlowMsg` under `pmConst`. -/
def sampleCFMsg : CodeFlow :=
  match CodeFlows.createCodeFlow resUnmapped pmConst sampleFlowMsg "0" with
  | .ok cf => cf
  | .error _ => { message := none, threads := [] }

/-- The thread produced by converting `sampleTFMsg` under `pmConst`. -/
def sampleTMsg : ThreadFlow :=
  match CodeFlows.createThreadFlow resUnmapped pmConst sampleTFMsg "0_0" with
  | .ok t => t
  | .error _ => { id := none, message := none, steps := [] }

/-- The tree obtained by remapping `sampleTreeList` (whose locations are all
not mapped) against `[sampleFlow]` with the mapping resolver `resMapped`. -/
def sampleRemapped : List CodeFlow :=
  match CodeFlows.tryRemapCodeFlows resMapped sampleTreeList [sampleFlow] with
  | .ok r => r
  | .error _ => []

/-! ## Helper lemmas -/

theorem decodeDigits_append (xs : List Char) (d : Char) :
    decodeDigits (xs ++ [d]) = 10 * decodeDigits xs + digitVal d := by
  simp [decodeDigits, List.foldl_append, Nat.mul_comm]

theorem digitVal_digitChar {m : Nat} (h : m < 10) : digitVal (Nat.digitChar m) = m := by
  interval_cases m <;> rfl

theorem digitChar_ne_underscore {m : Nat} (h : m < 10) : Nat.digitChar m ≠ '_' := by
  interval_cases m <;> decide

theorem toDigitsCore_acc (fuel : Nat) : ∀ (n : Nat) (acc : List Char),
    Nat.toDigitsCore 10 fuel n acc = Nat.toDigitsCore 10 fuel n [] ++ acc := by
  induction fuel with
  | zero => intro n acc; simp [Nat.toDigitsCore]
  | succ f ih =>
    intro n acc
    simp only [Nat.toDigitsCore]
    by_cases h0 : n / 10 = 0
    · rw [if_pos h0, if_pos h0]
      simp
    · rw [if_neg h0, if_neg h0]
      rw [ih (n / 10) [Nat.digitChar (n % 10)],
        ih (n / 10) (Nat.digitChar (n % 10) :: acc)]
      simp

theorem toDigitsCore_decode (n : Nat) : ∀ (fuel : Nat), n < fuel →
    decodeDigits (Nat.toDigitsCore 10 fuel n []) = n ∧
    ∀ c ∈ Nat.toDigitsCore 10 fuel n [], c ≠ '_' := by
  induction n using Nat.strong_induction_on with
  | _ n ih =>
    intro fuel hfuel
    cases fuel with
    | zero => omega
    | succ f =>
      simp only [Nat.toDigitsCore]
      by_cases h0 : n / 10 = 0
      · rw [if_pos h0]
        have hn : n < 10 := by
          by_contra hc
          have := Nat.le_div_iff_mul_le (by omega : 0 < 10) |>.mpr
            (by omega : 1 * 10 ≤ n)
          omega
        have hmod : n % 10 = n := Nat.mod_eq_of_lt hn
        constructor
        · simp [decodeDigits, hmod, digitVal_digitChar hn]
        · intro c hc
          simp only [List.mem_singleton] at hc
          subst hc
          rw [hmod]
          exact digitChar_ne_underscore hn
      · rw [if_neg h0]
        rw [toDigitsCore_acc]
        have hlt : n / 10 < n := Nat.div_lt_self (by omega) (by omega)
        have hf : n / 10 < f := by omega
        obtain ⟨ihd, ihc⟩ := ih (n / 10) hlt f hf
        constructor
        · rw [decodeDigits_append, ihd, digitVal_digitChar (Nat.mod_lt _ (by omega))]
          omega
        · intro c hc
          rw [List.mem_append] at hc
          rcases hc with hc | hc
          · exact ihc c hc
          · simp only [List.mem_singleton] at hc
            subst hc
            exact digitChar_ne_underscore (Nat.mod_lt _ (by omega))

theorem decode_repr (n : Nat) : decodeDigits (Nat.repr n).data = n := by
  have := (toDigitsCore_decode n (n + 1) (by omega)).1
  simpa [Nat.repr, Nat.toDigits, List.asString] using this

theorem repr_no_underscore (n : Nat) : ∀ c ∈ (Nat.repr n).data, c ≠ '_' := by
  have := (toDigitsCore_decode n (n + 1) (by omega)).2
  simpa [Nat.repr, Nat.toDigits, List.asString] using this

theorem append_underscore_inj : ∀ {l1 l1' l2 l2' : List Char},
    '_' ∉ l1 → '_' ∉ l1' →
    l1 ++ '_' :: l2 = l1' ++ '_' :: l2' → l1 = l1' ∧ l2 = l2' := by
  intro l1
  induction l1 with
  | nil =>
    intro l1' l2 l2' _ h1' h
    cases l1' with
    | nil => simpa using h
    | cons a t =>
      simp only [List.nil_append, List.cons_append, List.cons.injEq] at h
      exact absurd (by rw [← h.1]; exact List.mem_cons_self _ _) h1'
  | cons a t ih =>
    intro l1' l2 l2' h1 h1' h
    cases l1' with
    | nil =>
      simp only [List.cons_append, List.nil_append, List.cons.injEq] at h
      exact absurd (by rw [h.1]; exact List.mem_cons_self _ _) h1
    | cons a' t' =>
      simp only [List.cons_append, List.cons.injEq] at h
      obtain ⟨rfl, h2⟩ := h
      obtain ⟨he, h3⟩ :=
        ih (fun hm => h1 (List.mem_cons_of_mem _ hm))
          (fun hm => h1' (List.mem_cons_of_mem _ hm)) h2
      exact ⟨by rw [he], h3⟩

theorem tid_inj {i j k i' j' k' : Nat}
    (h : Nat.repr i ++ "_" ++ Nat.repr j ++ "_" ++ Nat.repr k =
         Nat.repr i' ++ "_" ++ Nat.repr j' ++ "_" ++ Nat.repr k') :
    i = i' ∧ j = j' ∧ k = k' := by
  have hd := congrArg String.data h
  simp only [String.data_append] at hd
  have hd' : (Nat.repr i).data ++ '_' ::
        ((Nat.repr j).data ++ '_' :: (Nat.repr k).data) =
      (Nat.repr i').data ++ '_' ::
        ((Nat.repr j').data ++ '_' :: (Nat.repr k').data) := by
    simpa [List.append_assoc] using hd
  obtain ⟨e1, e2⟩ :=
    append_underscore_inj (repr_no_underscore i '_' · rfl)
      (repr_no_underscore i' '_' · rfl) hd'
  obtain ⟨e3, e4⟩ :=
    append_underscore_inj (repr_no_underscore j '_' · rfl)
      (repr_no_underscore j' '_' · rfl) e2
  refine ⟨?_, ?_, ?_⟩
  · rw [← decode_repr i, ← decode_repr i', e1]
  · rw [← decode_repr j, ← decode_repr j', e3]
  · rw [← decode_repr k, ← decode_repr k', e4]

namespace CodeFlows

theorem stepRecord_isParent (pm : MsgParser) (c : CodeFlowLocation)
    (nxt : Option CodeFlowLocation) (tid : String) (loc : Option Location) :
    (stepRecord pm c nxt tid loc).isParent = (stepFlags c nxt).1 := rfl

theorem stepRecord_isLastChild (pm : MsgParser) (c : CodeFlowLocation)
    (nxt : Option CodeFlowLocation) (tid : String) (loc : Option Location) :
    (stepRecord pm c nxt tid loc).isLastChild = (stepFlags c nxt).2 := rfl

theorem stepRecord_location (pm : MsgParser) (c : CodeFlowLocation)
    (nxt : Option CodeFlowLocation) (tid : String) (loc : Option Location) :
    (stepRecord pm c nxt tid loc).location = loc := rfl

theorem stepRecord_traversalId (pm : MsgParser) (c : CodeFlowLocation)
    (nxt : Option CodeFlowLocation) (tid : String) (loc : Option Location) :
    (stepRecord pm c nxt tid loc).traversalId = tid := rfl

theorem stepRecord_message (pm : MsgParser) (c : CodeFlowLocation)
    (nxt : Option CodeFlowLocation) (tid : String) (loc : Option Location) :
    (stepRecord pm c nxt tid loc).message =
      stepMessageText pm c.location.message (stepFlags c nxt).2 := rfl

theorem stepRecord_messageWithStep (pm : MsgParser) (c : CodeFlowLocation)
    (nxt : Option CodeFlowLocation) (tid : String) (loc : Option Location) :
    (stepRecord pm c nxt tid loc).messageWithStep =
      match c.step with
      | none => (stepRecord pm c nxt tid loc).message
      | some s => s!"Step {s}: " ++ (stepRecord pm c nxt tid loc).message := rfl

theorem stepMessageText_empty {pm : MsgParser} {msg : Option SarifMessage}
    (h : pm msg = none ∨ ∃ p, pm msg = some p ∧ p.text = "") (flag : Bool) :
    stepMessageText pm msg flag =
      if flag then "[return call]" else "[no description]" := by
  rcases h with h | ⟨p, hp, hpt⟩
  · simp [stepMessageText, h]
  · simp [stepMessageText, hp, hpt]

theorem createCodeFlowStep_ok {resolve : Resolver} {pm : MsgParser}
    {cFLoc : CodeFlowLocation} {nxt : Option CodeFlowLocation} {tid : String}
    {st : CodeFlowStep}
    (h : createCodeFlowStep resolve pm cFLoc nxt tid = .ok st) :
    ∃ loc, resolve cFLoc.location.physicalLocation = .ok loc ∧
      st = stepRecord pm cFLoc nxt tid loc := by
  unfold createCodeFlowStep at h
  cases hr : resolve cFLoc.location.physicalLocation with
  | error e => rw [hr] at h; simp [Except.map] at h
  | ok loc =>
    rw [hr] at h
    simp only [Except.map, Except.ok.injEq] at h
    exact ⟨loc, rfl, h.symm⟩

theorem stepFlags_spec (c nxt : CodeFlowLocation) :
    ((stepFlags c (some nxt)).1 = true ↔
      (∃ a b, c.nestingLevel = some a ∧ nxt.nestingLevel = some b ∧ a < b) ∨
        (c.nestingLevel = none ∧ nxt.nestingLevel ≠ none)) ∧
    ((stepFlags c (some nxt)).2 = true ↔
      (stepFlags c (some nxt)).1 = false ∧
        ((∃ a b, c.nestingLevel = some a ∧ nxt.nestingLevel = some b ∧ b < a) ∨
          (c.nestingLevel ≠ none ∧ nxt.nestingLevel = none))) ∧
    (c.nestingLevel = nxt.nestingLevel →
      (stepFlags c (some nxt)).1 = false ∧ (stepFlags c (some nxt)).2 = false) ∧
    ¬((stepFlags c (some nxt)).1 = true ∧ (stepFlags c (some nxt)).2 = true) := by
  rcases hc : c.nestingLevel with _ | a <;> rcases hn : nxt.nestingLevel with _ | b <;>
    simp [stepFlags, jsLt, jsGt, hc, hn]
  rcases lt_trichotomy a b with h | h | h
  · have h1 : ¬b < a := by omega
    have h2 : a ≠ b := by omega
    simp [h, h1, h2]
  · have h1 : ¬a < b := by omega
    have h2 : ¬b < a := by omega
    simp [h, h1, h2]
  · have h1 : ¬a < b := by omega
    have h2 : a ≠ b := by omega
    simp [h, h1, h2]

theorem flowMessage_ok {pm : MsgParser} {msg : Option SarifMessage} {m : Option String}
    (h : flowMessage pm msg = .ok m) :
    (msg = none → m = none) ∧
    (∀ s, msg = some s → ∃ p, pm (some s) = some p ∧ m = some p.text) := by
  constructor
  · rintro rfl
    exact (Except.ok.inj h).symm
  · rintro s rfl
    simp only [flowMessage] at h
    cases hp : pm (some s) with
    | none => rw [hp] at h; cases h
    | some p => rw [hp] at h; exact ⟨p, rfl, (Except.ok.inj h).symm⟩

theorem createThreadFlow_ok {resolve : Resolver} {pm : MsgParser}
    {tf : SarifThreadFlow} {tid : String} {t : ThreadFlow}
    (h : createThreadFlow resolve pm tf tid = .ok t) :
    ∃ msg steps, flowMessage pm tf.message = .ok msg ∧
      stepsLoop resolve pm tid 0 tf.locations = .ok steps ∧
      t = { id := tf.id, message := msg, steps := steps } := by
  unfold createThreadFlow at h
  cases hm : flowMessage pm tf.message with
  | error e => rw [hm] at h; cases h
  | ok msg =>
    rw [hm] at h
    cases hs : stepsLoop resolve pm tid 0 tf.locations with
    | error e => rw [hs] at h; cases h
    | ok steps =>
      rw [hs] at h
      exact ⟨msg, steps, rfl, rfl, (Except.ok.inj h).symm⟩

theorem createCodeFlow_ok {resolve : Resolver} {pm : MsgParser}
    {f : SarifCodeFlow} {tid : String} {cf : CodeFlow}
    (h : createCodeFlow resolve pm f tid = .ok cf) :
    ∃ msg threads, flowMessage pm f.message = .ok msg ∧
      threadsLoop resolve pm tid 0 f.threadFlows = .ok threads ∧
      cf = { message := msg, threads := threads } := by
  unfold createCodeFlow at h
  cases hm : flowMessage pm f.message with
  | error e => rw [hm] at h; cases h
  | ok msg =>
    rw [hm] at h
    cases ht : threadsLoop resolve pm tid 0 f.threadFlows with
    | error e => rw [ht] at h; cases h
    | ok threads =>
      rw [ht] at h
      exact ⟨msg, threads, rfl, rfl, (Except.ok.inj h).symm⟩

theorem stepsLoop_ok {resolve : Resolver} {pm : MsgParser} {tid : String} :
    ∀ {k : Nat} {locs : List CodeFlowLocation} {steps : List CodeFlowStep},
      stepsLoop resolve pm tid k locs = .ok steps →
      steps.length = locs.length ∧
      ∀ n, n < locs.length → ∃ c s, locs[n]? = some c ∧ steps[n]? = some s ∧
        createCodeFlowStep resolve pm c locs[n + 1]?
          (tid ++ "_" ++ Nat.repr (k + n)) = .ok s := by
  intro k locs
  induction locs generalizing k with
  | nil =>
    intro steps h
    obtain rfl : ([] : List CodeFlowStep) = steps := Except.ok.inj h
    simp
  | cons c rest ih =>
    intro steps h
    simp only [stepsLoop] at h
    cases hs : createCodeFlowStep resolve pm c rest.head? (tid ++ "_" ++ Nat.repr k) with
    | error e => rw [hs] at h; cases h
    | ok s =>
      rw [hs] at h
      cases hr : stepsLoop resolve pm tid (k + 1) rest with
      | error e => rw [hr] at h; cases h
      | ok ss =>
        rw [hr] at h
        obtain rfl : s :: ss = steps := Except.ok.inj h
        obtain ⟨hlen, hall⟩ := ih hr
        refine ⟨by simp [hlen], ?_⟩
        intro n hn
        cases n with
        | zero =>
          refine ⟨c, s, by simp, by simp, ?_⟩
          cases rest with
          | nil => simpa using hs
          | cons c2 rest2 => simpa using hs
        | succ m =>
          obtain ⟨c', s', h1, h2, h3⟩ := hall m (by simpa using hn)
          refine ⟨c', s', by simpa using h1, by simpa using h2, ?_⟩
          rw [show k + (m + 1) = (k + 1) + m by omega]
          simpa using h3

theorem threadsLoop_ok {resolve : Resolver} {pm : MsgParser} {tid : String} :
    ∀ {j : Nat} {ts : List SarifThreadFlow} {tfs : List ThreadFlow},
      threadsLoop resolve pm tid j ts = .ok tfs →
      tfs.length = ts.length ∧
      ∀ n, n < ts.length → ∃ t tf, ts[n]? = some t ∧ tfs[n]? = some tf ∧
        createThreadFlow resolve pm t (tid ++ "_" ++ Nat.repr (j + n)) = .ok tf := by
  intro j ts
  induction ts generalizing j with
  | nil =>
    intro tfs h
    obtain rfl : ([] : List ThreadFlow) = tfs := Except.ok.inj h
    simp
  | cons t rest ih =>
    intro tfs h
    simp only [threadsLoop] at h
    cases hc : createThreadFlow resolve pm t (tid ++ "_" ++ Nat.repr j) with
    | error e => rw [hc] at h; cases h
    | ok tf =>
      rw [hc] at h
      cases hr : threadsLoop resolve pm tid (j + 1) rest with
      | error e => rw [hr] at h; cases h
      | ok tfs' =>
        rw [hr] at h
        obtain rfl : tf :: tfs' = tfs := Except.ok.inj h
        obtain ⟨hlen, hall⟩ := ih hr
        refine ⟨by simp [hlen], ?_⟩
        intro n hn
        cases n with
        | zero => exact ⟨t, tf, by simp, by simp, by simpa using hc⟩
        | succ m =>
          obtain ⟨t', tf', h1, h2, h3⟩ := hall m (by simpa using hn)
          refine ⟨t', tf', by simpa using h1, by simpa using h2, ?_⟩
          rw [show j + (m + 1) = (j + 1) + m by omega]
          simpa using h3

theorem flowsLoop_ok {resolve : Resolver} {pm : MsgParser} :
    ∀ {i : Nat} {fl : List SarifCodeFlow} {cfs : List CodeFlow},
      flowsLoop resolve pm i fl = .ok cfs →
      cfs.length = fl.length ∧
      ∀ n, n < fl.length → ∃ f cf, fl[n]? = some f ∧ cfs[n]? = some cf ∧
        createCodeFlow resolve pm f (Nat.repr (i + n)) = .ok cf := by
  intro i fl
  induction fl generalizing i with
  | nil =>
    intro cfs h
    obtain rfl : ([] : List CodeFlow) = cfs := Except.ok.inj h
    simp
  | cons f rest ih =>
    intro cfs h
    simp only [flowsLoop] at h
    cases hc : createCodeFlow resolve pm f (Nat.repr i) with
    | error e => rw [hc] at h; cases h
    | ok cf =>
      rw [hc] at h
      cases hr : flowsLoop resolve pm (i + 1) rest with
      | error e => rw [hr] at h; cases h
      | ok cfs' =>
        rw [hr] at h
        obtain rfl : cf :: cfs' = cfs := Except.ok.inj h
        obtain ⟨hlen, hall⟩ := ih hr
        refine ⟨by simp [hlen], ?_⟩
        intro n hn
        cases n with
        | zero => exact ⟨f, cf, by simp, by simp, by simpa using hc⟩
        | succ m =>
          obtain ⟨f', cf2, h1, h2, h3⟩ := hall m (by simpa using hn)
          refine ⟨f', cf2, by simpa using h1, by simpa using h2, ?_⟩
          rw [show i + (m + 1) = (i + 1) + m by omega]
          simpa using h3

theorem create_ok_cases {resolve : Resolver} {pm : MsgParser}
    {inp : Option (List SarifCodeFlow)} {r : Option (List CodeFlow)}
    (h : create resolve pm inp = .ok r) :
    ((inp = none ∨ inp = some []) → r = none) ∧
    (∀ fl, inp = some fl → fl ≠ [] →
      ∃ cfs, r = some cfs ∧ flowsLoop resolve pm 0 fl = .ok cfs) := by
  cases inp with
  | none =>
    refine ⟨fun _ => (Except.ok.inj h).symm, ?_⟩
    rintro fl h' _
    cases h'
  | some fl =>
    constructor
    · rintro (h' | h')
      · cases h'
      · obtain rfl : fl = [] := Option.some.inj h'
        exact (Except.ok.inj h).symm
    · rintro fl' h' hne
      obtain rfl : fl = fl' := Option.some.inj h'
      simp only [create] at h
      rw [if_pos (fun hl => hne (List.length_eq_zero.mp hl))] at h
      cases hf : flowsLoop resolve pm 0 fl with
      | error e => rw [hf] at h; cases h
      | ok cfs => rw [hf] at h; exact ⟨cfs, (Except.ok.inj h).symm, rfl⟩

theorem create_ok_none {resolve : Resolver} {pm : MsgParser} {fl : List SarifCodeFlow}
    (h : create resolve pm (some fl) = .ok none) : fl = [] := by
  by_contra hne
  simp only [create] at h
  rw [if_pos (fun hl => hne (List.length_eq_zero.mp hl))] at h
  cases hf : flowsLoop resolve pm 0 fl with
  | error e => rw [hf] at h; cases h
  | ok cfs =>
    rw [hf] at h
    exact Option.noConfusion (Except.ok.inj h)

theorem flowsLoop_mem {resolve : Resolver} {pm : MsgParser} :
    ∀ {i : Nat} {fl : List SarifCodeFlow} {cfs : List CodeFlow},
      flowsLoop resolve pm i fl = .ok cfs →
      ∀ cf ∈ cfs, ∃ f tid, createCodeFlow resolve pm f tid = .ok cf := by
  intro i fl
  induction fl generalizing i with
  | nil =>
    intro cfs h cf hm
    obtain rfl : ([] : List CodeFlow) = cfs := Except.ok.inj h
    cases hm
  | cons f rest ih =>
    intro cfs h cf hm
    simp only [flowsLoop] at h
    cases hc : createCodeFlow resolve pm f (Nat.repr i) with
    | error e => rw [hc] at h; cases h
    | ok cf0 =>
      rw [hc] at h
      cases hr : flowsLoop resolve pm (i + 1) rest with
      | error e => rw [hr] at h; cases h
      | ok cfs' =>
        rw [hr] at h
        obtain rfl : cf0 :: cfs' = cfs := Except.ok.inj h
        rcases List.mem_cons.mp hm with rfl | hm'
        · exact ⟨f, Nat.repr i, hc⟩
        · exact ih hr cf hm'

theorem threadsLoop_mem {resolve : Resolver} {pm : MsgParser} {tid : String} :
    ∀ {j : Nat} {ts : List SarifThreadFlow} {tfs : List ThreadFlow},
      threadsLoop resolve pm tid j ts = .ok tfs →
      ∀ t ∈ tfs, ∃ tf tid2, createThreadFlow resolve pm tf tid2 = .ok t := by
  intro j ts
  induction ts generalizing j with
  | nil =>
    intro tfs h t hm
    obtain rfl : ([] : List ThreadFlow) = tfs := Except.ok.inj h
    cases hm
  | cons t0 rest ih =>
    intro tfs h t hm
    simp only [threadsLoop] at h
    cases hc : createThreadFlow resolve pm t0 (tid ++ "_" ++ Nat.repr j) with
    | error e => rw [hc] at h; cases h
    | ok tf0 =>
      rw [hc] at h
      cases hr : threadsLoop resolve pm tid (j + 1) rest with
      | error e => rw [hr] at h; cases h
      | ok tfs' =>
        rw [hr] at h
        obtain rfl : tf0 :: tfs' = tfs := Except.ok.inj h
        rcases List.mem_cons.mp hm with rfl | hm'
        · exact ⟨t0, tid ++ "_" ++ Nat.repr j, hc⟩
        · exact ih hr t hm'

theorem stepsLoop_last {resolve : Resolver} {pm : MsgParser} {tid : String} :
    ∀ {k : Nat} {locs : List CodeFlowLocation} {steps : List CodeFlowStep},
      stepsLoop resolve pm tid k locs = .ok steps →
      ∀ s, steps.getLast? = some s → s.isParent = false ∧ s.isLastChild = false := by
  intro k locs
  induction locs generalizing k with
  | nil =>
    intro steps h s hs
    obtain rfl : ([] : List CodeFlowStep) = steps := Except.ok.inj h
    cases hs
  | cons c rest ih =>
    intro steps h s hs
    simp only [stepsLoop] at h
    cases hs0 : createCodeFlowStep resolve pm c rest.head? (tid ++ "_" ++ Nat.repr k) with
    | error e => rw [hs0] at h; cases h
    | ok s0 =>
      rw [hs0] at h
      cases hr : stepsLoop resolve pm tid (k + 1) rest with
      | error e => rw [hr] at h; cases h
      | ok ss =>
        rw [hr] at h
        obtain rfl : s0 :: ss = steps := Except.ok.inj h
        cases rest with
        | nil =>
          obtain rfl : ([] : List CodeFlowStep) = ss := Except.ok.inj hr
          obtain rfl : s = s0 := by simpa using hs.symm
          obtain ⟨loc, _, rfl⟩ := createCodeFlowStep_ok hs0
          exact ⟨rfl, rfl⟩
        | cons c2 rest2 =>
          have hlen := (stepsLoop_ok hr).1
          cases ss with
          | nil => simp at hlen
          | cons s1 ss' =>
            rw [List.getLast?_cons_cons] at hs
            exact ih hr s hs

theorem flowsLoop_input_ok {resolve : Resolver} {pm : MsgParser} :
    ∀ {i : Nat} {fl : List SarifCodeFlow} {cfs : List CodeFlow},
      flowsLoop resolve pm i fl = .ok cfs →
      ∀ f ∈ fl, ∃ tid cf, createCodeFlow resolve pm f tid = .ok cf := by
  intro i fl
  induction fl generalizing i with
  | nil => intro cfs _ f hm; cases hm
  | cons f0 rest ih =>
    intro cfs h f hm
    simp only [flowsLoop] at h
    cases hc : createCodeFlow resolve pm f0 (Nat.repr i) with
    | error e => rw [hc] at h; cases h
    | ok cf0 =>
      rw [hc] at h
      cases hr : flowsLoop resolve pm (i + 1) rest with
      | error e => rw [hr] at h; cases h
      | ok cfs' =>
        rcases List.mem_cons.mp hm with rfl | hm'
        · exact ⟨Nat.repr i, cf0, hc⟩
        · exact ih hr f hm'

theorem threadsLoop_input_ok {resolve : Resolver} {pm : MsgParser} {tid : String} :
    ∀ {j : Nat} {ts : List SarifThreadFlow} {tfs : List ThreadFlow},
      threadsLoop resolve pm tid j ts = .ok tfs →
      ∀ t ∈ ts, ∃ tid2 tf, createThreadFlow resolve pm t tid2 = .ok tf := by
  intro j ts
  induction ts generalizing j with
  | nil => intro tfs _ t hm; cases hm
  | cons t0 rest ih =>
    intro tfs h t hm
    simp only [threadsLoop] at h
    cases hc : createThreadFlow resolve pm t0 (tid ++ "_" ++ Nat.repr j) with
    | error e => rw [hc] at h; cases h
    | ok tf0 =>
      rw [hc] at h
      cases hr : threadsLoop resolve pm tid (j + 1) rest with
      | error e => rw [hr] at h; cases h
      | ok tfs' =>
        rcases List.mem_cons.mp hm with rfl | hm'
        · exact ⟨tid ++ "_" ++ Nat.repr j, tf0, hc⟩
        · exact ih hr t hm'

theorem stepsLoop_input_ok {resolve : Resolver} {pm : MsgParser} {tid : String} :
    ∀ {k : Nat} {locs : List CodeFlowLocation} {steps : List CodeFlowStep},
      stepsLoop resolve pm tid k locs = .ok steps →
      ∀ l ∈ locs, ∃ v, resolve l.location.physicalLocation = .ok v := by
  intro k locs
  induction locs generalizing k with
  | nil => intro steps _ l hm; cases hm
  | cons c rest ih =>
    intro steps h l hm
    simp only [stepsLoop] at h
    cases hs0 : createCodeFlowStep resolve pm c rest.head? (tid ++ "_" ++ Nat.repr k) with
    | error e => rw [hs0] at h; cases h
    | ok s0 =>
      rw [hs0] at h
      cases hr : stepsLoop resolve pm tid (k + 1) rest with
      | error e => rw [hr] at h; cases h
      | ok ss =>
        rcases List.mem_cons.mp hm with rfl | hm'
        · obtain ⟨loc, hres, _⟩ := createCodeFlowStep_ok hs0
          exact ⟨loc, hres⟩
        · exact ih hr l hm'

theorem remapStep_cases {resolve : Resolver} {raw : List SarifCodeFlow}
    {i j k : Nat} {s s' : CodeFlowStep}
    (h : remapStep resolve raw i j k s = .ok s') :
    (s.location = none → s' = s) ∧
    (∀ l, s.location = some l → l.mapped = true → s' = s) ∧
    (∀ l, s.location = some l → l.mapped = false →
      ∃ sl nl, rawLookup raw i j k = .ok sl ∧
        resolve sl.physicalLocation = .ok nl ∧
        s' = { s with location := nl }) := by
  refine ⟨?_, ?_, ?_⟩
  · intro hL
    simp only [remapStep, hL] at h
    exact (Except.ok.inj h).symm
  · intro l hL hm
    simp only [remapStep, hL] at h
    rw [if_pos hm] at h
    exact (Except.ok.inj h).symm
  · intro l hL hm
    simp only [remapStep, hL] at h
    rw [if_neg (by simp [hm])] at h
    split at h
    · cases h
    · rename_i sl hraw
      split at h
      · cases h
      · rename_i nl hres
        exact ⟨sl, nl, hraw, hres, (Except.ok.inj h).symm⟩

theorem remapStep_frame {resolve : Resolver} {raw : List SarifCodeFlow}
    {i j k : Nat} {s s' : CodeFlowStep}
    (h : remapStep resolve raw i j k s = .ok s') :
    s'.codeLensCommand = s.codeLensCommand ∧ s'.importance = s.importance ∧
    s'.isLastChild = s.isLastChild ∧ s'.isParent = s.isParent ∧
    s'.message = s.message ∧ s'.messageWithStep = s.messageWithStep ∧
    s'.state = s.state ∧ s'.stepId = s.stepId ∧ s'.traversalId = s.traversalId := by
  obtain ⟨h1, h2, h3⟩ := remapStep_cases h
  cases hL : s.location with
  | none =>
    obtain rfl := h1 hL
    exact ⟨rfl, rfl, rfl, rfl, rfl, rfl, rfl, rfl, rfl⟩
  | some l =>
    cases hm : l.mapped with
    | true =>
      obtain rfl := h2 l hL hm
      exact ⟨rfl, rfl, rfl, rfl, rfl, rfl, rfl, rfl, rfl⟩
    | false =>
      obtain ⟨sl, nl, _, _, rfl⟩ := h3 l hL hm
      exact ⟨rfl, rfl, rfl, rfl, rfl, rfl, rfl, rfl, rfl⟩

theorem remapStep_idem {resolve : Resolver} {raw : List SarifCodeFlow}
    {i j k : Nat} {s s' : CodeFlowStep}
    (h : remapStep resolve raw i j k s = .ok s') :
    remapStep resolve raw i j k s' = .ok s' := by
  obtain ⟨h1, h2, h3⟩ := remapStep_cases h
  cases hL : s.location with
  | none =>
    obtain rfl := h1 hL
    simp only [remapStep, hL]
  | some l =>
    cases hm : l.mapped with
    | true =>
      obtain rfl := h2 l hL hm
      simp only [remapStep, hL]
      rw [if_pos hm]
    | false =>
      obtain ⟨sl, nl, hraw, hres, rfl⟩ := h3 l hL hm
      cases nl with
      | none => simp only [remapStep]
      | some l2 =>
        cases hm2 : l2.mapped with
        | true =>
          simp only [remapStep]
          rw [if_pos hm2]
        | false =>
          simp only [remapStep]
          rw [if_neg (by simp [hm2])]
          simp only [hraw, hres]

theorem remapStepsLoop_ok {resolve : Resolver} {raw : List SarifCodeFlow}
    {i j : Nat} :
    ∀ {k : Nat} {ss ss' : List CodeFlowStep},
      remapStepsLoop resolve raw i j k ss = .ok ss' →
      ss'.length = ss.length ∧
      ∀ n, n < ss.length → ∃ s s', ss[n]? = some s ∧ ss'[n]? = some s' ∧
        remapStep resolve raw i j (k + n) s = .ok s' := by
  intro k ss
  induction ss generalizing k with
  | nil =>
    intro ss' h
    obtain rfl : ([] : List CodeFlowStep) = ss' := Except.ok.inj h
    simp
  | cons s rest ih =>
    intro ss' h
    simp only [remapStepsLoop] at h
    cases hs : remapStep resolve raw i j k s with
    | error e => rw [hs] at h; cases h
    | ok s1 =>
      rw [hs] at h
      cases hr : remapStepsLoop resolve raw i j (k + 1) rest with
      | error e => rw [hr] at h; cases h
      | ok rest1 =>
        rw [hr] at h
        obtain rfl : s1 :: rest1 = ss' := Except.ok.inj h
        obtain ⟨hlen, hall⟩ := ih hr
        refine ⟨by simp [hlen], ?_⟩
        intro n hn
        cases n with
        | zero => exact ⟨s, s1, by simp, by simp, by simpa using hs⟩
        | succ m =>
          obtain ⟨s2, s3, ha, hb, hc⟩ := hall m (by simpa using hn)
          refine ⟨s2, s3, by simpa using ha, by simpa using hb, ?_⟩
          rw [show k + (m + 1) = (k + 1) + m by omega]
          exact hc

theorem remapThreadsLoop_ok {resolve : Resolver} {raw : List SarifCodeFlow}
    {i : Nat} :
    ∀ {j : Nat} {ts ts' : List ThreadFlow},
      remapThreadsLoop resolve raw i j ts = .ok ts' →
      ts'.length = ts.length ∧
      ∀ n, n < ts.length → ∃ t steps', ts[n]? = some t ∧
        ts'[n]? = some { t with steps := steps' } ∧
        remapStepsLoop resolve raw i (j + n) 0 t.steps = .ok steps' := by
  intro j ts
  induction ts generalizing j with
  | nil =>
    intro ts' h
    obtain rfl : ([] : List ThreadFlow) = ts' := Except.ok.inj h
    simp
  | cons t rest ih =>
    intro ts' h
    simp only [remapThreadsLoop] at h
    cases hs : remapStepsLoop resolve raw i j 0 t.steps with
    | error e => rw [hs] at h; cases h
    | ok steps1 =>
      rw [hs] at h
      cases hr : remapThreadsLoop resolve raw i (j + 1) rest with
      | error e => rw [hr] at h; cases h
      | ok rest1 =>
        rw [hr] at h
        obtain rfl : { t with steps := steps1 } :: rest1 = ts' := Except.ok.inj h
        obtain ⟨hlen, hall⟩ := ih hr
        refine ⟨by simp [hlen], ?_⟩
        intro n hn
        cases n with
        | zero => exact ⟨t, steps1, by simp, by simp, by simpa using hs⟩
        | succ m =>
          obtain ⟨t2, steps2, ha, hb, hc⟩ := hall m (by simpa using hn)
          refine ⟨t2, steps2, by simpa using ha, by simpa using hb, ?_⟩
          rw [show j + (m + 1) = (j + 1) + m by omega]
          exact hc

theorem remapFlowsLoop_ok {resolve : Resolver} {raw : List SarifCodeFlow} :
    ∀ {i : Nat} {cfs cfs' : List CodeFlow},
      remapFlowsLoop resolve raw i cfs = .ok cfs' →
      cfs'.length = cfs.length ∧
      ∀ n, n < cfs.length → ∃ cf threads', cfs[n]? = some cf ∧
        cfs'[n]? = some { cf with threads := threads' } ∧
        remapThreadsLoop resolve raw (i + n) 0 cf.threads = .ok threads' := by
  intro i cfs
  induction cfs generalizing i with
  | nil =>
    intro cfs' h
    obtain rfl : ([] : List CodeFlow) = cfs' := Except.ok.inj h
    simp
  | cons cf rest ih =>
    intro cfs' h
    simp only [remapFlowsLoop] at h
    cases hs : remapThreadsLoop resolve raw i 0 cf.threads with
    | error e => rw [hs] at h; cases h
    | ok threads1 =>
      rw [hs] at h
      cases hr : remapFlowsLoop resolve raw (i + 1) rest with
      | error e => rw [hr] at h; cases h
      | ok rest1 =>
        rw [hr] at h
        obtain rfl : { cf with threads := threads1 } :: rest1 = cfs' := Except.ok.inj h
        obtain ⟨hlen, hall⟩ := ih hr
        refine ⟨by simp [hlen], ?_⟩
        intro n hn
        cases n with
        | zero => exact ⟨cf, threads1, by simp, by simp, by simpa using hs⟩
        | succ m =>
          obtain ⟨cf2, threads2, ha, hb, hc⟩ := hall m (by simpa using hn)
          refine ⟨cf2, threads2, by simpa using ha, by simpa using hb, ?_⟩
          rw [show i + (m + 1) = (i + 1) + m by omega]
          exact hc

theorem remapStepsLoop_idem {resolve : Resolver} {raw : List SarifCodeFlow}
    {i j : Nat} :
    ∀ {k : Nat} {ss ss' : List CodeFlowStep},
      remapStepsLoop resolve raw i j k ss = .ok ss' →
      remapStepsLoop resolve raw i j k ss' = .ok ss' := by
  intro k ss
  induction ss generalizing k with
  | nil =>
    intro ss' h
    obtain rfl : ([] : List CodeFlowStep) = ss' := Except.ok.inj h
    rfl
  | cons s rest ih =>
    intro ss' h
    simp only [remapStepsLoop] at h
    cases hs : remapStep resolve raw i j k s with
    | error e => rw [hs] at h; cases h
    | ok s1 =>
      rw [hs] at h
      cases hr : remapStepsLoop resolve raw i j (k + 1) rest with
      | error e => rw [hr] at h; cases h
      | ok rest1 =>
        rw [hr] at h
        obtain rfl : s1 :: rest1 = ss' := Except.ok.inj h
        simp only [remapStepsLoop, remapStep_idem hs, ih hr]

theorem remapThreadsLoop_idem {resolve : Resolver} {raw : List SarifCodeFlow}
    {i : Nat} :
    ∀ {j : Nat} {ts ts' : List ThreadFlow},
      remapThreadsLoop resolve raw i j ts = .ok ts' →
      remapThreadsLoop resolve raw i j ts' = .ok ts' := by
  intro j ts
  induction ts generalizing j with
  | nil =>
    intro ts' h
    obtain rfl : ([] : List ThreadFlow) = ts' := Except.ok.inj h
    rfl
  | cons t rest ih =>
    intro ts' h
    simp only [remapThreadsLoop] at h
    cases hs : remapStepsLoop resolve raw i j 0 t.steps with
    | error e => rw [hs] at h; cases h
    | ok steps1 =>
      rw [hs] at h
      cases hr : remapThreadsLoop resolve raw i (j + 1) rest with
      | error e => rw [hr] at h; cases h
      | ok rest1 =>
        rw [hr] at h
        obtain rfl : { t with steps := steps1 } :: rest1 = ts' := Except.ok.inj h
        simp only [remapThreadsLoop, remapStepsLoop_idem hs, ih hr]

theorem remapFlowsLoop_idem {resolve : Resolver} {raw : List SarifCodeFlow} :
    ∀ {i : Nat} {cfs cfs' : List CodeFlow},
      remapFlowsLoop resolve raw i cfs = .ok cfs' →
      remapFlowsLoop resolve raw i cfs' = .ok cfs' := by
  intro i cfs
  induction cfs generalizing i with
  | nil =>
    intro cfs' h
    obtain rfl : ([] : List CodeFlow) = cfs' := Except.ok.inj h
    rfl
  | cons cf rest ih =>
    intro cfs' h
    simp only [remapFlowsLoop] at h
    cases hs : remapThreadsLoop resolve raw i 0 cf.threads with
    | error e => rw [hs] at h; cases h
    | ok threads1 =>
      rw [hs] at h
      cases hr : remapFlowsLoop resolve raw (i + 1) rest with
      | error e => rw [hr] at h; cases h
      | ok rest1 =>
        rw [hr] at h
        obtain rfl : { cf with threads := threads1 } :: rest1 = cfs' := Except.ok.inj h
        simp only [remapFlowsLoop, remapThreadsLoop_idem hs, ih hr]

end CodeFlows

/-! ## Claim theorems -/

/-- Claim C1: for a step converted with a defined next raw location, `isParent`
holds exactly when `cur < nxt` or (`cur` undefined and `nxt` defined);
`isLastChild` holds exactly when `isParent` is false and (`cur > nxt` or
(`cur` defined and `nxt` undefined)); both are false when `cur = nxt`
(including both undefined); and the two flags are never simultaneously true
(`isParent` is checked first). -/
theorem claim1_step_classification (resolve : Resolver) (pm : MsgParser)
    (cFLoc nxt : CodeFlowLocation) (tid : String) (st : CodeFlowStep)
    (h : CodeFlows.createCodeFlowStep resolve pm cFLoc (some nxt) tid = .ok st) :
    (st.isParent = true ↔
      (∃ a b, cFLoc.nestingLevel = some a ∧ nxt.nestingLevel = some b ∧ a < b) ∨
        (cFLoc.nestingLevel = none ∧ nxt.nestingLevel ≠ none)) ∧
    (st.isLastChild = true ↔
      st.isParent = false ∧
        ((∃ a b, cFLoc.nestingLevel = some a ∧ nxt.nestingLevel = some b ∧ b < a) ∨
          (cFLoc.nestingLevel ≠ none ∧ nxt.nestingLevel = none))) ∧
    (cFLoc.nestingLevel = nxt.nestingLevel →
      st.isParent = false ∧ st.isLastChild = false) ∧
    ¬(st.isParent = true ∧ st.isLastChild = true) := by
  obtain ⟨loc, _, hst⟩ := CodeFlows.createCodeFlowStep_ok h
  subst hst
  rw [CodeFlows.stepRecord_isParent, CodeFlows.stepRecord_isLastChild]
  exact CodeFlows.stepFlags_spec cFLoc nxt

/-- Witness for C1 at the concrete input: current nesting level 0, next nesting
level 1, sample resolver and parser. -/
theorem claim1_step_classification_witness :
    (sampleStep01.isParent = true ↔
      (∃ a b, (sampleCFL (some 0)).nestingLevel = some a ∧
          (sampleCFL (some 1)).nestingLevel = some b ∧ a < b) ∨
        ((sampleCFL (some 0)).nestingLevel = none ∧
          (sampleCFL (some 1)).nestingLevel ≠ none)) ∧
    (sampleStep01.isLastChild = true ↔
      sampleStep01.isParent = false ∧
        ((∃ a b, (sampleCFL (some 0)).nestingLevel = some a ∧
            (sampleCFL (some 1)).nestingLevel = some b ∧ b < a) ∨
          ((sampleCFL (some 0)).nestingLevel ≠ none ∧
            (sampleCFL (some 1)).nestingLevel = none))) ∧
    ((sampleCFL (some 0)).nestingLevel = (sampleCFL (some 1)).nestingLevel →
      sampleStep01.isParent = false ∧ sampleStep01.isLastChild = false) ∧
    ¬(sampleStep01.isParent = true ∧ sampleStep01.isLastChild = true) :=
  claim1_step_classification resUnmapped pmNone (sampleCFL (some 0))
    (sampleCFL (some 1)) "0_0_0" sampleStep01 rfl

/-- Claim C2: `CodeFlows.create` yields `undefined` (not an empty sequence) for
an undefined or empty raw array; for a non-empty raw array its result is a
sequence of exactly the input's length whose element at index `i` is the
conversion of the raw code flow at index `i` (order preserved). -/
theorem claim2_create_shape (resolve : Resolver) (pm : MsgParser)
    (inp : Option (List SarifCodeFlow)) (r : Option (List CodeFlow))
    (h : CodeFlows.create resolve pm inp = .ok r) :
    ((inp = none ∨ inp = some []) → r = none) ∧
    (∀ fl, inp = some fl → fl ≠ [] →
      ∃ cfs, r = some cfs ∧ cfs.length = fl.length ∧
        ∀ i, i < fl.length → ∃ f cf, fl[i]? = some f ∧ cfs[i]? = some cf ∧
          CodeFlows.createCodeFlow resolve pm f (Nat.repr i) = .ok cf) := by
  obtain ⟨h1, h2⟩ := CodeFlows.create_ok_cases h
  refine ⟨h1, ?_⟩
  intro fl hfl hne
  obtain ⟨cfs, hr, hloop⟩ := h2 fl hfl hne
  obtain ⟨hlen, hall⟩ := CodeFlows.flowsLoop_ok hloop
  refine ⟨cfs, hr, hlen, ?_⟩
  intro i hi
  obtain ⟨f, cf, hf, hcf, hcreate⟩ := hall i hi
  exact ⟨f, cf, hf, hcf, by simpa using hcreate⟩

/-- Witness for C2 at the concrete input `[sampleFlow]`. -/
theorem claim2_create_shape_witness :
    ((some [sampleFlow] = none ∨ some [sampleFlow] = some []) → sampleTree = none) ∧
    (∀ fl, some [sampleFlow] = some fl → fl ≠ [] →
      ∃ cfs, sampleTree = some cfs ∧ cfs.length = fl.length ∧
        ∀ i, i < fl.length → ∃ f cf, fl[i]? = some f ∧ cfs[i]? = some cf ∧
          CodeFlows.createCodeFlow resUnmapped pmNone f (Nat.repr i) = .ok cf) :=
  claim2_create_shape resUnmapped pmNone (some [sampleFlow]) sampleTree rfl

/-- Claim C3: in every converted flow set, every thread's last step (when the
thread has at least one step) has `isParent = false` and `isLastChild = false`. -/
theorem claim3_last_step_flags (resolve : Resolver) (pm : MsgParser)
    (fl : List SarifCodeFlow) (cfs : List CodeFlow)
    (h : CodeFlows.create resolve pm (some fl) = .ok (some cfs)) :
    ∀ cf ∈ cfs, ∀ t ∈ cf.threads, ∀ s, t.steps.getLast? = some s →
      s.isParent = false ∧ s.isLastChild = false := by
  intro cf hcf t ht s hs
  have hne : fl ≠ [] := by
    rintro rfl
    exact Option.noConfusion ((CodeFlows.create_ok_cases h).1 (Or.inr rfl))
  obtain ⟨cfs', hr, hloop⟩ := (CodeFlows.create_ok_cases h).2 fl rfl hne
  obtain rfl : cfs = cfs' := Option.some.inj hr
  obtain ⟨f, tid, hcc⟩ := CodeFlows.flowsLoop_mem hloop cf hcf
  obtain ⟨msg, threads, _, hthreads, rfl⟩ := CodeFlows.createCodeFlow_ok hcc
  obtain ⟨tf, tid2, hctf⟩ := CodeFlows.threadsLoop_mem hthreads t ht
  obtain ⟨msg2, steps, _, hsteps, rfl⟩ := CodeFlows.createThreadFlow_ok hctf
  exact CodeFlows.stepsLoop_last hsteps s hs

/-- Witness for C3: the last step of the single thread of the converted
`[sampleFlow]` has both flags false. -/
theorem claim3_last_step_flags_witness :
    sampleLastStep.isParent = false ∧ sampleLastStep.isLastChild = false :=
  claim3_last_step_flags resUnmapped pmNone [sampleFlow] sampleTreeList rfl
    sampleCF0 (by decide) sampleT0 (by decide) sampleLastStep (by decide)

/-- Claim C6: if the external resolver rejects for some raw location present in
the input, the whole conversion call fails — no partial `CodeFlowSet` is ever
returned. -/
theorem claim6_failure_aborts (resolve : Resolver) (pm : MsgParser)
    (fl : List SarifCodeFlow) (f : SarifCodeFlow) (t : SarifThreadFlow)
    (l : CodeFlowLocation) (e : JsError)
    (hf : f ∈ fl) (ht : t ∈ f.threadFlows) (hl : l ∈ t.locations)
    (hres : resolve l.location.physicalLocation = .error e) :
    ∃ e2, CodeFlows.create resolve pm (some fl) = .error e2 := by
  cases hc : CodeFlows.create resolve pm (some fl) with
  | error e2 => exact ⟨e2, rfl⟩
  | ok r =>
    exfalso
    cases r with
    | none =>
      obtain rfl := CodeFlows.create_ok_none hc
      cases hf
    | some cfs =>
      have hne : fl ≠ [] := by rintro rfl; cases hf
      obtain ⟨cfs', _, hloop⟩ := (CodeFlows.create_ok_cases hc).2 fl rfl hne
      obtain ⟨tid, cf, hcc⟩ := CodeFlows.flowsLoop_input_ok hloop f hf
      obtain ⟨msg, threads, _, hthreads, _⟩ := CodeFlows.createCodeFlow_ok hcc
      obtain ⟨tid2, tf, hctf⟩ := CodeFlows.threadsLoop_input_ok hthreads t ht
      obtain ⟨msg2, steps, _, hsteps, _⟩ := CodeFlows.createThreadFlow_ok hctf
      obtain ⟨v, hv⟩ := CodeFlows.stepsLoop_input_ok hsteps l hl
      rw [hres] at hv
      cases hv

/-- Witness for C6: the always-rejecting resolver `resFail` on `[sampleFlow]`. -/
theorem claim6_failure_aborts_witness :
    ∃ e2, CodeFlows.create resFail pmNone (some [sampleFlow]) = .error e2 :=
  claim6_failure_aborts resFail pmNone [sampleFlow] sampleFlow sampleTF
    (sampleCFL (some 0)) (JsError.resolveFailure 42) (by simp)
    (by simp [sampleFlow]) (by simp [sampleTF]) rfl

/-- Claim C10: the converted tree has exactly the input's index structure —
flow count, per-flow thread count and per-thread step count all match the raw
array, order preserved, so RemapPass's index-based correspondence holds. -/
theorem claim10_index_structure (resolve : Resolver) (pm : MsgParser)
    (fl : List SarifCodeFlow) (cfs : List CodeFlow)
    (h : CodeFlows.create resolve pm (some fl) = .ok (some cfs)) :
    cfs.length = fl.length ∧
    ∀ (i : Nat) (cf : CodeFlow), cfs[i]? = some cf →
      ∃ f, fl[i]? = some f ∧
        cf.threads.length = f.threadFlows.length ∧
        ∀ (j : Nat) (t : ThreadFlow), cf.threads[j]? = some t →
          ∃ tf, f.threadFlows[j]? = some tf ∧
            t.steps.length = tf.locations.length := by
  have hne : fl ≠ [] := by
    rintro rfl
    exact Option.noConfusion ((CodeFlows.create_ok_cases h).1 (Or.inr rfl))
  obtain ⟨cfs', hr, hloop⟩ := (CodeFlows.create_ok_cases h).2 fl rfl hne
  obtain rfl : cfs = cfs' := Option.some.inj hr
  obtain ⟨hlen, hall⟩ := CodeFlows.flowsLoop_ok hloop
  refine ⟨hlen, ?_⟩
  intro i cf hcf
  have hi : i < fl.length := by
    rw [← hlen]
    by_contra hc
    rw [List.getElem?_eq_none (by omega)] at hcf
    cases hcf
  obtain ⟨f, cf2, hf, hcf2, hcreate⟩ := hall i hi
  obtain rfl : cf2 = cf := Option.some.inj (hcf2.symm.trans hcf)
  obtain ⟨msg, threads, _, hthreads, rfl⟩ := CodeFlows.createCodeFlow_ok hcreate
  obtain ⟨htlen, htall⟩ := CodeFlows.threadsLoop_ok hthreads
  refine ⟨f, hf, htlen, ?_⟩
  intro j t htj
  have htj' : threads[j]? = some t := htj
  have hj : j < f.threadFlows.length := by
    rw [← htlen]
    by_contra hc
    rw [List.getElem?_eq_none (by omega)] at htj'
    cases htj'
  obtain ⟨tf, t2, htf, ht2, hctf⟩ := htall j hj
  obtain rfl : t2 = t := Option.some.inj (ht2.symm.trans htj')
  obtain ⟨msg2, steps, _, hsteps, rfl⟩ := CodeFlows.createThreadFlow_ok hctf
  obtain ⟨hslen, _⟩ := CodeFlows.stepsLoop_ok hsteps
  exact ⟨tf, htf, hslen⟩

/-- Witness for C10 at the concrete input `[sampleFlow]`. -/
theorem claim10_index_structure_witness :
    sampleTreeList.length = [sampleFlow].length ∧
    ∀ (i : Nat) (cf : CodeFlow), sampleTreeList[i]? = some cf →
      ∃ f, [sampleFlow][i]? = some f ∧
        cf.threads.length = f.threadFlows.length ∧
        ∀ (j : Nat) (t : ThreadFlow), cf.threads[j]? = some t →
          ∃ tf, f.threadFlows[j]? = some tf ∧
            t.steps.length = tf.locations.length :=
  claim10_index_structure resUnmapped pmNone [sampleFlow] sampleTreeList rfl

/-- Claim C4: when the parsed message text of the current raw location is
absent or empty, the step's message is the literal `"[return call]"` if
`isLastChild` and `"[no description]"` otherwise; `messageWithStep` is
`"Step <ordinal>: "` prepended to the message when the raw location carries a
step ordinal, and equals the message exactly otherwise. -/
theorem claim4_step_labels (resolve : Resolver) (pm : MsgParser)
    (cFLoc : CodeFlowLocation) (nxt : Option CodeFlowLocation) (tid : String)
    (st : CodeFlowStep)
    (h : CodeFlows.createCodeFlowStep resolve pm cFLoc nxt tid = .ok st) :
    ((pm cFLoc.location.message = none ∨
        (∃ p, pm cFLoc.location.message = some p ∧ p.text = "")) →
      st.message = if st.isLastChild then "[return call]" else "[no description]") ∧
    (∀ n, cFLoc.step = some n →
      st.messageWithStep = "Step " ++ Nat.repr n ++ ": " ++ st.message) ∧
    (cFLoc.step = none → st.messageWithStep = st.message) := by
  obtain ⟨loc, _, rfl⟩ := CodeFlows.createCodeFlowStep_ok h
  refine ⟨?_, ?_, ?_⟩
  · intro hpm
    rw [CodeFlows.stepRecord_message, CodeFlows.stepRecord_isLastChild]
    exact CodeFlows.stepMessageText_empty hpm _
  · intro n hn
    rw [CodeFlows.stepRecord_messageWithStep, hn]
    rfl
  · intro hn
    rw [CodeFlows.stepRecord_messageWithStep, hn]

/-- Witness for C4 at the concrete input `sampleCFLOrd` (ordinal 5, no
message). -/
theorem claim4_step_labels_witness :
    ((pmNone sampleCFLOrd.location.message = none ∨
        (∃ p, pmNone sampleCFLOrd.location.message = some p ∧ p.text = "")) →
      sampleStepOrd.message =
        if sampleStepOrd.isLastChild then "[return call]" else "[no description]") ∧
    (∀ n, sampleCFLOrd.step = some n →
      sampleStepOrd.messageWithStep =
        "Step " ++ Nat.repr n ++ ": " ++ sampleStepOrd.message) ∧
    (sampleCFLOrd.step = none →
      sampleStepOrd.messageWithStep = sampleStepOrd.message) :=
  claim4_step_labels resUnmapped pmNone sampleCFLOrd none "0_0_0" sampleStepOrd rfl

/-- Claim C7: a raw code flow (resp. thread flow) without a message object gets
an undefined converted message (never a spurious empty string); with a message
object, the converted message is exactly the text returned by the external
parser. -/
theorem claim7_optional_messages (resolve : Resolver) (pm : MsgParser)
    (f : SarifCodeFlow) (tf : SarifThreadFlow) (tid tid2 : String)
    (cf : CodeFlow) (t : ThreadFlow)
    (hf : CodeFlows.createCodeFlow resolve pm f tid = .ok cf)
    (ht : CodeFlows.createThreadFlow resolve pm tf tid2 = .ok t) :
    (f.message = none → cf.message = none) ∧
    (∀ m p, f.message = some m → pm (some m) = some p → cf.message = some p.text) ∧
    (tf.message = none → t.message = none) ∧
    (∀ m p, tf.message = some m → pm (some m) = some p → t.message = some p.text) := by
  obtain ⟨msg, threads, hm, _, rfl⟩ := CodeFlows.createCodeFlow_ok hf
  obtain ⟨msg2, steps, hm2, _, rfl⟩ := CodeFlows.createThreadFlow_ok ht
  obtain ⟨ha, hb⟩ := CodeFlows.flowMessage_ok hm
  obtain ⟨ha2, hb2⟩ := CodeFlows.flowMessage_ok hm2
  refine ⟨fun h2 => ha h2, ?_, fun h2 => ha2 h2, ?_⟩
  · intro m p hm' hp
    obtain ⟨p', hp', hmsg⟩ := hb m hm'
    obtain rfl : p' = p := Option.some.inj (hp'.symm.trans hp)
    exact hmsg
  · intro m p hm' hp
    obtain ⟨p', hp', hmsg⟩ := hb2 m hm'
    obtain rfl : p' = p := Option.some.inj (hp'.symm.trans hp)
    exact hmsg

/-- Witness for C7 at the concrete inputs `sampleFlowMsg` and `sampleTFMsg`
under the parser `pmConst`. -/
theorem claim7_optional_messages_witness :
    (sampleFlowMsg.message = none → sampleCFMsg.message = none) ∧
    (∀ m p, sampleFlowMsg.message = some m → pmConst (some m) = some p →
      sampleCFMsg.message = some p.text) ∧
    (sampleTFMsg.message = none → sampleTMsg.message = none) ∧
    (∀ m p, sampleTFMsg.message = some m → pmConst (some m) = some p →
      sampleTMsg.message = some p.text) :=
  claim7_optional_messages resUnmapped pmConst sampleFlowMsg sampleTFMsg
    "0" "0_0" sampleCFMsg sampleTMsg rfl rfl

/-- Claim C5: the remap pass overwrites the location of exactly those steps
whose location is non-null and not marked mapped (even when the new resolution
is again not mapped), leaves null or already-mapped locations untouched, and
changes no other field of any step, thread, or flow. -/
theorem claim5_remap_frame (resolve : Resolver) (cfs : List CodeFlow)
    (raw : List SarifCodeFlow) (cfs' : List CodeFlow)
    (h : CodeFlows.tryRemapCodeFlows resolve cfs raw = .ok cfs') :
    cfs'.length = cfs.length ∧
    ∀ (i : Nat) (cf cf' : CodeFlow), cfs[i]? = some cf → cfs'[i]? = some cf' →
      cf'.message = cf.message ∧ cf'.threads.length = cf.threads.length ∧
      ∀ (j : Nat) (t t' : ThreadFlow),
        cf.threads[j]? = some t → cf'.threads[j]? = some t' →
        t'.id = t.id ∧ t'.message = t.message ∧ t'.steps.length = t.steps.length ∧
        ∀ (k : Nat) (s s' : CodeFlowStep),
          t.steps[k]? = some s → t'.steps[k]? = some s' →
          (s'.codeLensCommand = s.codeLensCommand ∧ s'.importance = s.importance ∧
            s'.isLastChild = s.isLastChild ∧ s'.isParent = s.isParent ∧
            s'.message = s.message ∧ s'.messageWithStep = s.messageWithStep ∧
            s'.state = s.state ∧ s'.stepId = s.stepId ∧
            s'.traversalId = s.traversalId) ∧
          ((s.location = none ∨ ∃ l, s.location = some l ∧ l.mapped = true) →
            s'.location = s.location) ∧
          (∀ l, s.location = some l → l.mapped = false →
            ∃ sl nl, CodeFlows.rawLookup raw i j k = .ok sl ∧
              resolve sl.physicalLocation = .ok nl ∧ s'.location = nl) := by
  obtain ⟨hlen, hall⟩ := CodeFlows.remapFlowsLoop_ok h
  refine ⟨hlen, ?_⟩
  intro i cf cf' hcf hcf'
  have hi : i < cfs.length := by
    by_contra hc
    rw [List.getElem?_eq_none (by omega)] at hcf
    cases hcf
  obtain ⟨cf2, threads', ha, hb, hthreads⟩ := hall i hi
  obtain rfl : cf = cf2 := Option.some.inj (hcf.symm.trans ha)
  obtain rfl : cf' = { cf with threads := threads' } :=
    (Option.some.inj (hb.symm.trans hcf')).symm
  rw [Nat.zero_add] at hthreads
  obtain ⟨htlen, htall⟩ := CodeFlows.remapThreadsLoop_ok hthreads
  refine ⟨rfl, htlen, ?_⟩
  intro j t t' ht ht'
  have hj : j < cf.threads.length := by
    by_contra hc
    rw [List.getElem?_eq_none (by omega)] at ht
    cases ht
  obtain ⟨t2, steps', ha2, hb2, hsteps⟩ := htall j hj
  obtain rfl : t = t2 := Option.some.inj (ht.symm.trans ha2)
  have ht'2 : threads'[j]? = some t' := ht'
  obtain rfl : t' = { t with steps := steps' } :=
    (Option.some.inj (hb2.symm.trans ht'2)).symm
  rw [Nat.zero_add] at hsteps
  obtain ⟨hslen, hsall⟩ := CodeFlows.remapStepsLoop_ok hsteps
  refine ⟨rfl, rfl, hslen, ?_⟩
  intro k s s' hs hs'
  have hk : k < t.steps.length := by
    by_contra hc
    rw [List.getElem?_eq_none (by omega)] at hs
    cases hs
  obtain ⟨s2, s3, ha3, hb3, hstep⟩ := hsall k hk
  obtain rfl : s = s2 := Option.some.inj (hs.symm.trans ha3)
  have hs'2 : steps'[k]? = some s' := hs'
  obtain rfl : s' = s3 := Option.some.inj (hs'2.symm.trans hb3)
  rw [Nat.zero_add] at hstep
  refine ⟨CodeFlows.remapStep_frame hstep, ?_, ?_⟩
  · rintro (hL | ⟨l, hL, hm⟩)
    · obtain rfl := (CodeFlows.remapStep_cases hstep).1 hL
      rfl
    · obtain rfl := (CodeFlows.remapStep_cases hstep).2.1 l hL hm
      rfl
  · intro l hL hm
    obtain ⟨sl, nl, h1, h2, rfl⟩ := (CodeFlows.remapStep_cases hstep).2.2 l hL hm
    exact ⟨sl, nl, h1, h2, rfl⟩

/-- Witness for C5: remapping the concrete tree `sampleTreeList` against
`[sampleFlow]` with the resolver `resMapped`. -/
theorem claim5_remap_frame_witness :
    sampleRemapped.length = sampleTreeList.length ∧
    ∀ (i : Nat) (cf cf' : CodeFlow),
      sampleTreeList[i]? = some cf → sampleRemapped[i]? = some cf' →
      cf'.message = cf.message ∧ cf'.threads.length = cf.threads.length ∧
      ∀ (j : Nat) (t t' : ThreadFlow),
        cf.threads[j]? = some t → cf'.threads[j]? = some t' →
        t'.id = t.id ∧ t'.message = t.message ∧ t'.steps.length = t.steps.length ∧
        ∀ (k : Nat) (s s' : CodeFlowStep),
          t.steps[k]? = some s → t'.steps[k]? = some s' →
          (s'.codeLensCommand = s.codeLensCommand ∧ s'.importance = s.importance ∧
            s'.isLastChild = s.isLastChild ∧ s'.isParent = s.isParent ∧
            s'.message = s.message ∧ s'.messageWithStep = s.messageWithStep ∧
            s'.state = s.state ∧ s'.stepId = s.stepId ∧
            s'.traversalId = s.traversalId) ∧
          ((s.location = none ∨ ∃ l, s.location = some l ∧ l.mapped = true) →
            s'.location = s.location) ∧
          (∀ l, s.location = some l → l.mapped = false →
            ∃ sl nl, CodeFlows.rawLookup [sampleFlow] i j k = .ok sl ∧
              resMapped sl.physicalLocation = .ok nl ∧ s'.location = nl) :=
  claim5_remap_frame resMapped sampleTreeList [sampleFlow] sampleRemapped rfl

/-- Claim C9: with a deterministic resolver (modelled as a pure function),
running the remap pass twice in sequence leaves the tree in the same final
state as running it once. -/
theorem claim9_remap_idempotent (resolve : Resolver) (cfs : List CodeFlow)
    (raw : List SarifCodeFlow) (cfs' : List CodeFlow)
    (h : CodeFlows.tryRemapCodeFlows resolve cfs raw = .ok cfs') :
    CodeFlows.tryRemapCodeFlows resolve cfs' raw = .ok cfs' :=
  CodeFlows.remapFlowsLoop_idem h

/-- Witness for C9: remapping the concrete tree `sampleTreeList` twice. -/
theorem claim9_remap_idempotent_witness :
    CodeFlows.tryRemapCodeFlows resMapped sampleRemapped [sampleFlow] =
      .ok sampleRemapped :=
  claim9_remap_idempotent resMapped sampleTreeList [sampleFlow] sampleRemapped rfl

/-- Claim C8: the traversal id of the step at flow index `i`, thread index `j`,
step index `k` is exactly the string `"i_j_k"` (decimal indices joined by
underscores), and traversal ids are pairwise distinct across the whole tree. -/
theorem claim8_traversal_ids (resolve : Resolver) (pm : MsgParser)
    (fl : List SarifCodeFlow) (cfs : List CodeFlow)
    (h : CodeFlows.create resolve pm (some fl) = .ok (some cfs)) :
    (∀ (i j k : Nat) (cf : CodeFlow) (t : ThreadFlow) (s : CodeFlowStep),
      cfs[i]? = some cf → cf.threads[j]? = some t → t.steps[k]? = some s →
      s.traversalId = Nat.repr i ++ "_" ++ Nat.repr j ++ "_" ++ Nat.repr k) ∧
    (∀ (i j k i' j' k' : Nat) (cf cf' : CodeFlow) (t t' : ThreadFlow)
        (s s' : CodeFlowStep),
      cfs[i]? = some cf → cf.threads[j]? = some t → t.steps[k]? = some s →
      cfs[i']? = some cf' → cf'.threads[j']? = some t' → t'.steps[k']? = some s' →
      ¬(i = i' ∧ j = j' ∧ k = k') → s.traversalId ≠ s'.traversalId) := by
  have hmain : ∀ (i j k : Nat) (cf : CodeFlow) (t : ThreadFlow) (s : CodeFlowStep),
      cfs[i]? = some cf → cf.threads[j]? = some t → t.steps[k]? = some s →
      s.traversalId = Nat.repr i ++ "_" ++ Nat.repr j ++ "_" ++ Nat.repr k := by
    intro i j k cf t s hcf ht hs
    have hne : fl ≠ [] := by
      rintro rfl
      exact Option.noConfusion ((CodeFlows.create_ok_cases h).1 (Or.inr rfl))
    obtain ⟨cfs2, hr, hloop⟩ := (CodeFlows.create_ok_cases h).2 fl rfl hne
    obtain rfl : cfs = cfs2 := Option.some.inj hr
    obtain ⟨hlen, hall⟩ := CodeFlows.flowsLoop_ok hloop
    have hi : i < fl.length := by
      rw [← hlen]
      by_contra hc
      rw [List.getElem?_eq_none (by omega)] at hcf
      cases hcf
    obtain ⟨f, cf2, hf, hcf2, hcreate⟩ := hall i hi
    obtain rfl : cf = cf2 := Option.some.inj (hcf.symm.trans hcf2)
    rw [Nat.zero_add] at hcreate
    obtain ⟨msg, threads, _, hthreads, rfl⟩ := CodeFlows.createCodeFlow_ok hcreate
    have ht2 : threads[j]? = some t := ht
    obtain ⟨htlen, htall⟩ := CodeFlows.threadsLoop_ok hthreads
    have hj : j < f.threadFlows.length := by
      rw [← htlen]
      by_contra hc
      rw [List.getElem?_eq_none (by omega)] at ht2
      cases ht2
    obtain ⟨tf, t2, htf, ht3, hctf⟩ := htall j hj
    obtain rfl : t = t2 := Option.some.inj (ht2.symm.trans ht3)
    rw [Nat.zero_add] at hctf
    obtain ⟨msg2, steps, _, hsteps, rfl⟩ := CodeFlows.createThreadFlow_ok hctf
    have hs2 : steps[k]? = some s := hs
    obtain ⟨hslen, hsall⟩ := CodeFlows.stepsLoop_ok hsteps
    have hk : k < tf.locations.length := by
      rw [← hslen]
      by_contra hc
      rw [List.getElem?_eq_none (by omega)] at hs2
      cases hs2
    obtain ⟨c, s2, hc, hs3, hstep⟩ := hsall k hk
    obtain rfl : s = s2 := Option.some.inj (hs2.symm.trans hs3)
    rw [Nat.zero_add] at hstep
    obtain ⟨loc, _, rfl⟩ := CodeFlows.createCodeFlowStep_ok hstep
    rfl
  refine ⟨hmain, ?_⟩
  intro i j k i' j' k' cf cf' t t' s s' h1 h2 h3 h4 h5 h6 hne heq
  rw [hmain i j k cf t s h1 h2 h3, hmain i' j' k' cf' t' s' h4 h5 h6] at heq
  exact hne (tid_inj heq)

/-- Witness for C8 at the concrete input `[sampleFlow]`. -/
theorem claim8_traversal_ids_witness :
    (∀ (i j k : Nat) (cf : CodeFlow) (t : ThreadFlow) (s : CodeFlowStep),
      sampleTreeList[i]? = some cf → cf.threads[j]? = some t →
      t.steps[k]? = some s →
      s.traversalId = Nat.repr i ++ "_" ++ Nat.repr j ++ "_" ++ Nat.repr k) ∧
    (∀ (i j k i' j' k' : Nat) (cf cf' : CodeFlow) (t t' : ThreadFlow)
        (s s' : CodeFlowStep),
      sampleTreeList[i]? = some cf → cf.threads[j]? = some t →
      t.steps[k]? = some s →
      sampleTreeList[i']? = some cf' → cf'.threads[j']? = some t' →
      t'.steps[k']? = some s' →
      ¬(i = i' ∧ j = j' ∧ k = k') → s.traversalId ≠ s'.traversalId) :=
  claim8_traversal_ids resUnmapped pmNone [sampleFlow] sampleTreeList rfl

end SarifViewer
